import Mathlib

/-!
# libsacloud-v86 client: request/response correlation over a stream and a shared directory

A shallow embedding of `client.go` (package `v86`): `Client.Do`, `Client.do`,
`Client.handleResponse`, `Client.parseResponse`, `Client.postRequestMessage` and the two
file-name helpers, together with the parts of the Go runtime they call
(`encoding/json` decoding of the Response envelope, `path/filepath.Join`, the `os` calls on
the shared directory, the `select` over the ticker and the context).

Go strings and byte slices are byte sequences.  Mutable state (the request stream, the shared
directory) is passed explicitly in a `World`; what the environment decides (which `select`
case fires, what the Host Watcher writes and when, whether a system call hits an I/O error)
is an explicit schedule.
-/

set_option autoImplicit false

namespace V86

/-! ## Bytes -/

/-- A Go `[]byte` or `string`: a finite sequence of bytes. -/
abbrev Bytes := List UInt8

/-- The bytes of a string literal (its UTF-8 encoding), as Go stores a string constant. -/
def utf8 (s : String) : Bytes := s.data.flatMap String.utf8EncodeChar

/-! ## encoding/json: reading a JSON text -/

namespace Json

/-- A parsed JSON value.  A string holds its unquoted bytes, a number its literal text. -/
inductive Value where
  | null
  | bool (b : Bool)
  | number (lit : Bytes)
  | string (s : Bytes)
  | array (elems : List Value)
  | object (members : List (Bytes × Value))

/-- The scanner's `isSpace`: space, tab, carriage return, line feed. -/
def isSpace (c : UInt8) : Bool := c == 0x20 || c == 0x09 || c == 0x0d || c == 0x0a

/-- Drop leading JSON white space. -/
def skipSpace : Bytes → Bytes
  | [] => []
  | c :: cs => if isSpace c then skipSpace cs else c :: cs

/-- The scanner's limit on open arrays and objects (`maxNestingDepth`). -/
def maxNestingDepth : Nat := 10000

def isDigit (c : UInt8) : Bool := 0x30 ≤ c && c ≤ 0x39

/-- Value of a hexadecimal digit, as `getu4` reads it. -/
def hexVal (c : UInt8) : Option Nat :=
  if 0x30 ≤ c && c ≤ 0x39 then some (c.toNat - 0x30)
  else if 0x61 ≤ c && c ≤ 0x66 then some (c.toNat - 0x61 + 10)
  else if 0x41 ≤ c && c ≤ 0x46 then some (c.toNat - 0x41 + 10)
  else none

/-- The rune of four hexadecimal digits (`getu4` after the backslash and the u). -/
def hex4 (a b c d : UInt8) : Option Nat :=
  match hexVal a, hexVal b, hexVal c, hexVal d with
  | some w, some x, some y, some z => some (((w * 16 + x) * 16 + y) * 16 + z)
  | _, _, _, _ => none

/-- UTF-8 encoding of a rune below 0x110000 that is not a surrogate (`utf8.EncodeRune`). -/
def encodeRune (r : Nat) : Bytes :=
  if r < 0x80 then [UInt8.ofNat r]
  else if r < 0x800 then [UInt8.ofNat (0xC0 + r / 64), UInt8.ofNat (0x80 + r % 64)]
  else if r < 0x10000 then
    [UInt8.ofNat (0xE0 + r / 4096), UInt8.ofNat (0x80 + r / 64 % 64), UInt8.ofNat (0x80 + r % 64)]
  else
    [UInt8.ofNat (0xF0 + r / 262144), UInt8.ofNat (0x80 + r / 4096 % 64),
     UInt8.ofNat (0x80 + r / 64 % 64), UInt8.ofNat (0x80 + r % 64)]

/-- The encoding of U+FFFD, written for every invalid byte and every unpaired surrogate. -/
def replacementChar : Bytes := [0xEF, 0xBF, 0xBD]

def isSurrogate (r : Nat) : Bool := 0xD800 ≤ r && r < 0xE000

/-- Decode a surrogate pair (`utf16.DecodeRune`); `none` stands for U+FFFD. -/
def decodeSurrogates (r1 r2 : Nat) : Option Nat :=
  if 0xD800 ≤ r1 && r1 < 0xDC00 && 0xDC00 ≤ r2 && r2 < 0xE000 then
    some ((r1 - 0xD800) * 1024 + (r2 - 0xDC00) + 0x10000)
  else none

def isCont (c : UInt8) : Bool := 0x80 ≤ c && c ≤ 0xBF

/-- Length (2, 3 or 4) of the well-formed UTF-8 sequence that starts with the byte `c`
followed by `cs`, or 0 when `utf8.DecodeRune` reports an error there. -/
def utf8SeqLen (c : UInt8) (cs : Bytes) : Nat :=
  match cs with
  | [] => 0
  | b1 :: cs1 =>
    if 0xC2 ≤ c && c ≤ 0xDF then (if isCont b1 then 2 else 0)
    else
      match cs1 with
      | [] => 0
      | b2 :: cs2 =>
        let lo : UInt8 := if c == 0xE0 then 0xA0 else if c == 0xF0 then 0x90 else 0x80
        let hi : UInt8 := if c == 0xED then 0x9F else if c == 0xF4 then 0x8F else 0xBF
        if 0xE0 ≤ c && c ≤ 0xEF then
          (if lo ≤ b1 && b1 ≤ hi && isCont b2 then 3 else 0)
        else if 0xF0 ≤ c && c ≤ 0xF4 then
          match cs2 with
          | [] => 0
          | b3 :: _ => if lo ≤ b1 && b1 ≤ hi && isCont b2 && isCont b3 then 4 else 0
        else 0

/-- Read a string literal after its opening quote: the scanner's checks (no byte below 0x20,
only the escapes JSON knows) and `unquote` in one pass.  Returns the unquoted bytes and the
input after the closing quote.  `k` counts the continuation bytes of a well-formed UTF-8
sequence still to be copied. -/
def scanString : Nat → Nat → Bytes → Option (Bytes × Bytes)
  | 0, _, _ => none
  | _ + 1, _, [] => none
  | fuel + 1, k + 1, c :: cs => (scanString fuel k cs).map fun (s, r) => (c :: s, r)
  | fuel + 1, 0, c :: cs =>
    if c == 0x22 then some ([], cs)
    else if c == 0x5c then
      match cs with
      | [] => none
      | e :: cs1 =>
        if e == 0x75 then
          match cs1 with
          | h1 :: h2 :: h3 :: h4 :: cs2 =>
            match hex4 h1 h2 h3 h4 with
            | none => none
            | some r =>
              if isSurrogate r then
                match cs2 with
                | b :: u :: l1 :: l2 :: l3 :: l4 :: cs3 =>
                  match (if b == 0x5c && u == 0x75 then hex4 l1 l2 l3 l4 else none) with
                  | some r2 =>
                    match decodeSurrogates r r2 with
                    | some d => (scanString fuel 0 cs3).map fun (s, t) => (encodeRune d ++ s, t)
                    | none => (scanString fuel 0 cs2).map fun (s, t) => (replacementChar ++ s, t)
                  | none => (scanString fuel 0 cs2).map fun (s, t) => (replacementChar ++ s, t)
                | _ => (scanString fuel 0 cs2).map fun (s, t) => (replacementChar ++ s, t)
              else (scanString fuel 0 cs2).map fun (s, t) => (encodeRune r ++ s, t)
          | _ => none
        else
          let out : Option UInt8 :=
            if e == 0x22 || e == 0x5c || e == 0x2f then some e
            else if e == 0x62 then some 0x08
            else if e == 0x66 then some 0x0c
            else if e == 0x6e then some 0x0a
            else if e == 0x72 then some 0x0d
            else if e == 0x74 then some 0x09
            else none
          match out with
          | none => none
          | some o => (scanString fuel 0 cs1).map fun (s, t) => (o :: s, t)
    else if c < 0x20 then none
    else if c < 0x80 then (scanString fuel 0 cs).map fun (s, t) => (c :: s, t)
    else
      match utf8SeqLen c cs with
      | 0 => (scanString fuel 0 cs).map fun (s, t) => (replacementChar ++ s, t)
      | n + 1 => (scanString fuel n cs).map fun (s, t) => (c :: s, t)

/-- The longest run of digits at the head of the input, and what follows it. -/
def spanDigits : Bytes → Bytes × Bytes
  | [] => ([], [])
  | c :: cs =>
    if isDigit c then
      let (ds, r) := spanDigits cs
      (c :: ds, r)
    else ([], c :: cs)

/-- The integer part of a number literal: `0`, or a digit run that does not start with `0`. -/
def scanInt (input : Bytes) : Option (Bytes × Bytes) :=
  match input with
  | [] => none
  | d :: r1 =>
    if d == 0x30 then some ([d], r1)
    else if isDigit d then some (d :: (spanDigits r1).1, (spanDigits r1).2)
    else none

/-- The optional fraction of a number literal: a dot and at least one digit. -/
def scanFrac (input : Bytes) : Option (Bytes × Bytes) :=
  match input with
  | [] => some ([], [])
  | c :: cs =>
    if c == 0x2e then
      (if (spanDigits cs).1 == [] then none else some (c :: (spanDigits cs).1, (spanDigits cs).2))
    else some ([], c :: cs)

/-- The optional sign of an exponent. -/
def scanSign (input : Bytes) : Bytes × Bytes :=
  match input with
  | [] => ([], [])
  | s :: cs => if s == 0x2b || s == 0x2d then ([s], cs) else ([], s :: cs)

/-- The optional exponent of a number literal: `e` or `E`, an optional sign and at least one
digit. -/
def scanExp (input : Bytes) : Option (Bytes × Bytes) :=
  match input with
  | [] => some ([], [])
  | c :: cs =>
    if c == 0x65 || c == 0x45 then
      (if (spanDigits (scanSign cs).2).1 == [] then none
       else some (c :: (scanSign cs).1 ++ (spanDigits (scanSign cs).2).1,
         (spanDigits (scanSign cs).2).2))
    else some ([], c :: cs)

/-- Read a number literal: an optional minus, the integer part, an optional fraction, an
optional exponent.  Returns the literal and the input after it. -/
def scanNumber (input : Bytes) : Option (Bytes × Bytes) :=
  let sr : Bytes × Bytes :=
    match input with
    | [] => ([], [])
    | c :: cs => if c == 0x2d then ([c], cs) else ([], c :: cs)
  match scanInt sr.2 with
  | none => none
  | some (ip, r1) =>
    match scanFrac r1 with
    | none => none
    | some (fp, r2) =>
      match scanExp r2 with
      | none => none
      | some (ep, r3) => some (sr.1 ++ ip ++ fp ++ ep, r3)

/-- Strip the bytes `lit` from the head of the input. -/
def expect : Bytes → Bytes → Option Bytes
  | [], input => some input
  | _ :: _, [] => none
  | l :: ls, c :: cs => if l == c then expect ls cs else none

mutual
/-- Read one JSON value at the head of the input (white space already skipped); `depth` is
the number of arrays and objects currently open. -/
def parseValue : Nat → Nat → Bytes → Option (Value × Bytes)
  | 0, _, _ => none
  | _ + 1, _, [] => none
  | fuel + 1, depth, c :: cs =>
    if c == 0x22 then
      (scanString (cs.length + 1) 0 cs).map fun (s, r) => (Value.string s, r)
    else if c == 0x7b then
      if maxNestingDepth ≤ depth then none
      else
        match skipSpace cs with
        | [] => none
        | d :: ds =>
          if d == 0x7d then some (Value.object [], ds)
          else parseMembers fuel (depth + 1) (d :: ds) []
    else if c == 0x5b then
      if maxNestingDepth ≤ depth then none
      else
        match skipSpace cs with
        | [] => none
        | d :: ds =>
          if d == 0x5d then some (Value.array [], ds)
          else parseElems fuel (depth + 1) (d :: ds) []
    else if c == 0x74 then (expect [0x72, 0x75, 0x65] cs).map fun r => (Value.bool true, r)
    else if c == 0x66 then
      (expect [0x61, 0x6c, 0x73, 0x65] cs).map fun r => (Value.bool false, r)
    else if c == 0x6e then (expect [0x75, 0x6c, 0x6c] cs).map fun r => (Value.null, r)
    else (scanNumber (c :: cs)).map fun (n, r) => (Value.number n, r)
/-- Read the elements of an array up to its closing bracket; `acc` holds those read so far. -/
def parseElems : Nat → Nat → Bytes → List Value → Option (Value × Bytes)
  | 0, _, _, _ => none
  | fuel + 1, depth, input, acc =>
    match parseValue fuel depth input with
    | none => none
    | some (v, r) =>
      match skipSpace r with
      | [] => none
      | d :: ds =>
        if d == 0x2c then parseElems fuel depth (skipSpace ds) (acc ++ [v])
        else if d == 0x5d then some (Value.array (acc ++ [v]), ds)
        else none
/-- Read the members of an object up to its closing brace; `acc` holds those read so far. -/
def parseMembers : Nat → Nat → Bytes → List (Bytes × Value) → Option (Value × Bytes)
  | 0, _, _, _ => none
  | _ + 1, _, [], _ => none
  | fuel + 1, depth, q :: cs, acc =>
    if q == 0x22 then
      match scanString (cs.length + 1) 0 cs with
      | none => none
      | some (key, r) =>
        match skipSpace r with
        | [] => none
        | colon :: r1 =>
          if colon == 0x3a then
            match parseValue fuel depth (skipSpace r1) with
            | none => none
            | some (v, r2) =>
              match skipSpace r2 with
              | [] => none
              | d :: ds =>
                if d == 0x2c then parseMembers fuel depth (skipSpace ds) (acc ++ [(key, v)])
                else if d == 0x7d then some (Value.object (acc ++ [(key, v)]), ds)
                else none
          else none
    else none
end

/-- Read a whole JSON text: one value, white space around it, nothing else.  `none` is the
case in which `checkValid` returns a `SyntaxError`.  Every nested call follows at least one
consumed byte, so twice the length of the text is fuel enough (`parseText_fuel`). -/
def parseText (data : Bytes) : Option Value :=
  match parseValue (2 * data.length + 2) 0 (skipSpace data) with
  | none => none
  | some (v, r) => if skipSpace r == [] then some v else none

/-- Whether `checkValid` accepts the text. -/
def checkValid (data : Bytes) : Bool := (parseText data).isSome

end Json

/-! ## Errors and envelopes -/

/-- The type `sacloud.APIErrorResponse` of package `github.com/sacloud/libsacloud/v2/sacloud`:
the structured error body of the API. -/
structure APIErrorResponse where
  IsFatal : Bool
  Serial : Bytes
  Status : Bytes
  ErrorCode : Bytes
  ErrorMessage : Bytes
  deriving DecidableEq, Repr

/-- Go `error` values the client can return.  `none : Option GoError` is the nil error. -/
inductive GoError where
  /-- A `*json.SyntaxError`: the text is not JSON. -/
  | jsonSyn
  /-- A `*json.UnmarshalTypeError`: a JSON value does not fit the Go type it is stored in. -/
  | jsonType
  /-- A `*json.InvalidUnmarshalError`: the target of `Unmarshal` is nil or not a pointer. -/
  | jsonInvalidUnmarshal
  /-- A `*fs.PathError` of an `os` call. -/
  | pathError (op : String) (path : Bytes) (cause : String)
  /-- An error made by `fmt.Errorf`, with its message. -/
  | errorf (msg : Bytes)
  /-- The value `sacloud.NewAPIError` builds; `origin` is its `*APIErrorResponse` argument. -/
  | apiError (method : Bytes) (url : Bytes) (body : Bytes) (code : Int)
      (origin : Option APIErrorResponse)
  /-- An error of a collaborator outside the sources (`json.Marshal` of the body,
  `Request.toJSON`, the stream's `Write`). -/
  | other (msg : String)
  deriving DecidableEq, Repr

/-- The function `sacloud.NewAPIError(requestMethod, requestURL, requestBody, responseCode, err)`:
it stores its five arguments.  The URL is kept as the string `url.Parse` was given. -/
def NewAPIError (method url body : Bytes) (code : Int) (err : Option APIErrorResponse) : GoError :=
  GoError.apiError method url body code err

/-- What a Go function of type `([]byte, error)` returns; `none` is nil on either side. -/
abbrev Result := Option Bytes × Option GoError

/-- The Request envelope (`Request`, built in `Client.Do`). -/
structure Request where
  UUID : Bytes
  Method : Bytes
  URL : Bytes
  Body : Bytes
  deriving DecidableEq, Repr

/-- Modelled from the spec: the type `Response`, whose declaration is not among the sources.
The wire format is an object with the members `result` (string), `error` (string) and
`status_code` (integer); the client reads the fields `Result`, `Error` and `StatusCode`. -/
structure Response where
  Result : Bytes
  Error : Bytes
  StatusCode : Int
  deriving DecidableEq, Repr

namespace Json

/-- The zero value of `Response`, which `var res Response` declares. -/
def zeroResponse : Response := { Result := [], Error := [], StatusCode := 0 }

/-- The fields of `Response`, in declaration order. -/
inductive Field where
  | result
  | error
  | statusCode
  deriving DecidableEq, Repr

/-- The JSON name of a field (its struct tag). -/
def Field.name : Field → Bytes
  | .result => utf8 "result"
  | .error => utf8 "error"
  | .statusCode => utf8 "status_code"

def isLetter (c : UInt8) : Bool := (0x41 ≤ c && c ≤ 0x5a) || (0x61 ≤ c && c ≤ 0x7a)

/-- Upper-case form of an ASCII letter (`b & caseMask`). -/
def upper (c : UInt8) : UInt8 := if 0x61 ≤ c && c ≤ 0x7a then c - 0x20 else c

/-- The decoder's case-insensitive comparison of an ASCII field name `s` with a key `t`:
ASCII letters match in either case, every other ASCII byte matches itself, and the two
non-ASCII runes that fold to ASCII letters match them: U+017F (long s) an `s`, U+212A
(Kelvin sign) a `k`. -/
def equalFold : Bytes → Bytes → Bool
  | [], [] => true
  | [], _ :: _ => false
  | _ :: _, [] => false
  | s :: ss, t :: ts =>
    if t < 0x80 then (s == t || (isLetter s && upper s == upper t)) && equalFold ss ts
    else
      match ts with
      | t1 :: ts1 =>
        if t == 0xC5 && t1 == 0xBF then upper s == 0x53 && equalFold ss ts1
        else
          match ts1 with
          | t2 :: ts2 =>
            if t == 0xE2 && t1 == 0x84 && t2 == 0xAA then upper s == 0x4b && equalFold ss ts2
            else false
          | [] => false
      | [] => false

/-- The field an object key selects: an exact match of the name first, else the first field
whose name matches case-insensitively; `none` when the key is unknown (its value is skipped). -/
def fieldOf (key : Bytes) : Option Field :=
  let fields := [Field.result, Field.error, Field.statusCode]
  match fields.find? (fun f => f.name == key) with
  | some f => some f
  | none => fields.find? (fun f => equalFold f.name key)

/-- The integer a number literal denotes for a Go `int` of `bits` bits: `strconv.ParseInt`
in base 10 (no fraction, no exponent, within 64 bits) followed by the overflow check of the
field's kind. -/
def parseInt (bits : Nat) (lit : Bytes) : Option Int :=
  let (neg, ds) : Bool × Bytes :=
    match lit with
    | c :: cs => if c == 0x2d then (true, cs) else (false, lit)
    | [] => (false, [])
  if ds.all isDigit && !ds.isEmpty then
    let n : Nat := ds.foldl (fun a d => a * 10 + (d.toNat - 0x30)) 0
    let v : Int := if neg then -(n : Int) else (n : Int)
    if -(2 ^ 63 : Int) ≤ v ∧ v < 2 ^ 63 ∧ -(2 ^ (bits - 1) : Int) ≤ v ∧ v < 2 ^ (bits - 1) then
      some v
    else none
  else none

/-- Store one object member into the struct, as `decodeState.object` does.  A `null` leaves
the field as it is; a value of the wrong kind records an `UnmarshalTypeError` (the first one
is kept) and decoding goes on. -/
def storeMember (bits : Nat) (st : Response × Option GoError) (m : Bytes × Value) :
    Response × Option GoError :=
  let (res, err) := st
  let bad : Response × Option GoError := (res, err.orElse fun _ => some GoError.jsonType)
  match fieldOf m.1 with
  | none => st
  | some Field.result =>
    match m.2 with
    | Value.string s => ({ res with Result := s }, err)
    | Value.null => st
    | _ => bad
  | some Field.error =>
    match m.2 with
    | Value.string s => ({ res with Error := s }, err)
    | Value.null => st
    | _ => bad
  | some Field.statusCode =>
    match m.2 with
    | Value.number lit =>
      match parseInt bits lit with
      | some v => ({ res with StatusCode := v }, err)
      | none => bad
    | Value.null => st
    | _ => bad

/-- The call `json.Unmarshal(data, &res)` for `var res Response`: a text that is not JSON is a
`SyntaxError`; `null` leaves the zero value; an object is stored member by member; any other
value is an `UnmarshalTypeError`.  `bits` is the size of `int` on the target. -/
def unmarshalResponse (bits : Nat) (data : Bytes) : Except GoError Response :=
  match parseText data with
  | none => .error GoError.jsonSyn
  | some Value.null => .ok zeroResponse
  | some (Value.object ms) =>
    match ms.foldl (storeMember bits) (zeroResponse, none) with
    | (res, none) => .ok res
    | (_, some err) => .error err
  | some _ => .error GoError.jsonType

/-- The call `json.Unmarshal(data, v)` where `v` holds a nil pointer: `checkValid` runs first
and reports a `SyntaxError`; a valid text then meets `InvalidUnmarshalError`.  The returned
error is never nil. -/
def unmarshalNil (data : Bytes) : Option GoError :=
  if checkValid data then some GoError.jsonInvalidUnmarshal else some GoError.jsonSyn

end Json

/-! ## path/filepath -/

/-- Split a path at its slashes. -/
def splitSlash : Bytes → List Bytes
  | [] => [[]]
  | c :: cs =>
    if c == 0x2f then [] :: splitSlash cs
    else
      match splitSlash cs with
      | [] => [[c]]
      | e :: es => (c :: e) :: es

/-- One step of `filepath.Clean` over the elements kept so far (last one first): an empty
element and `.` are dropped, `..` removes the last real element, stays when the path is not
rooted and nothing is left to remove, and is dropped at the root. -/
def cleanStep (rooted : Bool) (kept : List Bytes) (e : Bytes) : List Bytes :=
  if e == [] || e == [0x2e] then kept
  else if e == [0x2e, 0x2e] then
    match kept with
    | [] => if rooted then [] else [e]
    | k :: ks => if k == [0x2e, 0x2e] then e :: k :: ks else ks
  else e :: kept

/-- The function `filepath.Clean` for slash-separated paths. -/
def filepathClean (path : Bytes) : Bytes :=
  match path with
  | [] => [0x2e]
  | c :: _ =>
    let rooted := c == 0x2f
    let kept := ((splitSlash path).foldl (cleanStep rooted) []).reverse
    let body := [0x2f].intercalate kept
    if rooted then 0x2f :: body else if body == [] then [0x2e] else body

/-- The call `filepath.Join(dir, name)`: empty arguments are ignored, the others are joined
with a slash and cleaned. -/
def filepathJoin (dir name : Bytes) : Bytes :=
  if dir != [] then filepathClean (dir ++ 0x2f :: name)
  else if name != [] then filepathClean name
  else []

/-! ## The shared directory and the request stream -/

/-- An entry of the file system: a regular file with its content, or a directory. -/
inductive Node where
  | file (data : Bytes)
  | dir
  deriving DecidableEq, Repr

/-- The file system: the entries that exist, by path. -/
abbrev FS := List (Bytes × Node)

/-- The entry at a path, if one exists. -/
def fsLookup : FS → Bytes → Option Node
  | [], _ => none
  | (q, n) :: rest, p => if q = p then some n else fsLookup rest p

/-- Whether the path `q` is `p` itself or lies below the directory `p`. -/
def isUnder (p q : Bytes) : Bool := q == p || (p ++ [0x2f]).isPrefixOf q

/-- The file system without the entry at `p` and without what lies below it. -/
def fsRemoveAll (fs : FS) (p : Bytes) : FS := fs.filter fun e => !isUnder p e.1

/-- The file system after `os.WriteFile(p, d, perm)`: `p` is a regular file holding `d`. -/
def fsWriteFile (fs : FS) (p d : Bytes) : FS := (p, Node.file d) :: fs.filter fun e => e.1 != p

/-- The operations the client performs on what it shares with other goroutines and
processes, in the order it performs them. -/
inductive Call where
  | lock
  | unlock
  | write (p : Bytes)
  | stat (path : Bytes)
  | readFile (path : Bytes)
  | removeAll (path : Bytes)
  deriving DecidableEq, Repr

/-- The system calls that hit an I/O error (no permission, a failing device) whatever the
entries are; decided by the environment. -/
abbrev Faults := Call → Bool

/-- No I/O error. -/
def noFaults : Faults := fun _ => false

/-- The state outside the client: what has been written to `requestStream`, the file system
holding `responseDir`, and the record of the client's operations on them and on `mu`. -/
structure World where
  stream : Bytes
  fs : FS
  calls : List Call
  deriving DecidableEq, Repr

/-- Record an operation. -/
def World.log (w : World) (c : Call) : World := { w with calls := w.calls ++ [c] }

/-- The error of `os.Stat(p)`: nil when an entry exists at `p`. -/
def osStat (io : Faults) (fs : FS) (p : Bytes) : Option GoError :=
  if io (Call.stat p) then some (GoError.pathError "stat" p "input/output error")
  else
    match fsLookup fs p with
    | some _ => none
    | none => some (GoError.pathError "stat" p "no such file or directory")

/-- The call `os.ReadFile(p)`: the content of the regular file at `p`. -/
def osReadFile (io : Faults) (fs : FS) (p : Bytes) : Except GoError Bytes :=
  if io (Call.readFile p) then .error (GoError.pathError "open" p "input/output error")
  else
    match fsLookup fs p with
    | some (Node.file d) => .ok d
    | some Node.dir => .error (GoError.pathError "read" p "is a directory")
    | none => .error (GoError.pathError "open" p "no such file or directory")

/-- The call `os.RemoveAll(p)`: removes `p` and what lies below it, and succeeds when there
is nothing at `p`.  A failed call leaves the entries as they were.  (Its refusal of the empty
path and of a path ending in a dot is not modelled: such a path names a directory or nothing,
and the client removes a path only after it has read a regular file there or, for the marker,
a path whose last element ends in `.done`.) -/
def osRemoveAll (io : Faults) (fs : FS) (p : Bytes) : Option GoError × FS :=
  if io (Call.removeAll p) then
    (some (GoError.pathError "unlinkat" p "operation not permitted"), fs)
  else (none, fsRemoveAll fs p)

/-! ## The context, the ticker and the Host Watcher -/

/-- The value of `ctx.Err()` once the context is done. -/
inductive CtxErr where
  | canceled
  | deadlineExceeded
  deriving DecidableEq, Repr

/-- The message of `ctx.Err()`. -/
def CtxErr.Error : CtxErr → Bytes
  | .canceled => utf8 "context canceled"
  | .deadlineExceeded => utf8 "context deadline exceeded"

/-- What happens next while `handleResponse` waits.  `tick` and `done` are the two cases of
its `select`; `host` is a step of the Host Watcher between two iterations. -/
inductive Event where
  /-- The ticker fires and `select` takes that case; `io` names the system calls that hit an
  I/O error during this iteration. -/
  | tick (io : Faults)
  /-- The context is done and `select` takes that case; `err` is `ctx.Err()`. -/
  | done (err : CtxErr)
  /-- The Host Watcher writes a file (`os.WriteFile`). -/
  | host (path : Bytes) (data : Bytes)

/-- How a call stands when the schedule ends: it has returned, or it is still blocked in
`select`. -/
inductive Outcome where
  | returned (r : Result)
  | waiting
  deriving DecidableEq, Repr

/-! ## The client -/

/-- What the program takes from outside the listed sources. -/
structure Env where
  /-- Size in bits of Go's `int` on the target (32 on 386, 64 on amd64). -/
  intSize : Nat
  /-- The method `Request.toJSON`, declared in a file that is not among the sources. -/
  toJSON : Request → Except GoError Bytes

/-- The struct `Client`.  Its `requestStream` and `mu` are mutable and shared: their state
lives in the `World`. -/
structure Client where
  httpRequestTimeout : Nat
  responseDir : Bytes
  deriving DecidableEq, Repr

/-- The constant `time.Second`, in nanoseconds. -/
def second : Nat := 1000000000

/-- The function `NewClient(requestStream, responsePath)`. -/
def NewClient (responsePath : Bytes) : Client :=
  { httpRequestTimeout := 30 * second, responseDir := responsePath }

/-- The marker entry of a request: `filepath.Join(c.responseDir, req.UUID+".done")`. -/
def Client.responseJobFileName (c : Client) (req : Request) : Bytes :=
  filepathJoin c.responseDir (req.UUID ++ utf8 ".done")

/-- The data entry of a request: `filepath.Join(c.responseDir, req.UUID)`. -/
def Client.responseDataFileName (c : Client) (req : Request) : Bytes :=
  filepathJoin c.responseDir req.UUID

/-- The method `Client.parseResponse`. -/
def Client.parseResponse (_ : Client) (env : Env) (req : Request) (data : Bytes) : Result :=
  match Json.unmarshalResponse env.intSize data with
  | .error err => (none, some err)
  | .ok res =>
    if res.Error ≠ [] then
      let parsedURL := req.URL
      let errRes : Option APIErrorResponse := none
      match Json.unmarshalNil res.Error with
      | some _ => (none, some (NewAPIError req.Method parsedURL req.Body res.StatusCode errRes))
      | none => (none, some (GoError.errorf (utf8 "unknown error: " ++ res.Error)))
    else (some res.Result, none)

/-- The method `Client.handleResponse`: the `for`/`select` loop, run against a schedule of
events.  When the schedule ends the call is still waiting. -/
def Client.handleResponse (c : Client) (env : Env) :
    List Event → World → Request → Outcome × World
  | [], w, _ => (Outcome.waiting, w)
  | Event.host p d :: es, w, req =>
    Client.handleResponse c env es { w with fs := fsWriteFile w.fs p d } req
  | Event.done err :: _, w, _ =>
    (Outcome.returned (none, some (GoError.errorf (utf8 "request canceled: " ++ err.Error))), w)
  | Event.tick io :: es, w, req =>
    let w1 := w.log (Call.stat (c.responseJobFileName req))
    match osStat io w1.fs (c.responseJobFileName req) with
    | some _ => Client.handleResponse c env es w1 req
    | none =>
      let w2 := w1.log (Call.readFile (c.responseDataFileName req))
      match osReadFile io w2.fs (c.responseDataFileName req) with
      | .error err => (Outcome.returned (none, some err), w2)
      | .ok data =>
        let w3 := w2.log (Call.removeAll (c.responseJobFileName req))
        match osRemoveAll io w3.fs (c.responseJobFileName req) with
        | (some err, fs3) => (Outcome.returned (none, some err), { w3 with fs := fs3 })
        | (none, fs3) =>
          let w4 := ({ w3 with fs := fs3 }).log (Call.removeAll (c.responseDataFileName req))
          match osRemoveAll io w4.fs (c.responseDataFileName req) with
          | (some err, fs4) => (Outcome.returned (none, some err), { w4 with fs := fs4 })
          | (none, fs4) =>
            (Outcome.returned (c.parseResponse env req data), { w4 with fs := fs4 })

/-- The method `Client.postRequestMessage`.  `wf` is what the stream's `Write` does on this
call: `none` when it takes the whole line, `some (n, err)` when it fails with `err` after
`n` bytes. -/
def Client.postRequestMessage (_ : Client) (env : Env) (wf : Option (Nat × GoError))
    (w : World) (req : Request) : Option GoError × World :=
  let w1 := w.log Call.lock
  match env.toJSON req with
  | .error err => (some err, w1.log Call.unlock)
  | .ok data =>
    let line := data ++ utf8 "\n"
    let w2 := w1.log (Call.write line)
    match wf with
    | none => (none, ({ w2 with stream := w2.stream ++ line }).log Call.unlock)
    | some (n, err) =>
      (some err, ({ w2 with stream := w2.stream ++ line.take n }).log Call.unlock)

/-- The method `Client.do`.  The context `reqCtx` it derives (the caller's context bounded by
`httpRequestTimeout`) is what ends the wait: its expiry or cancellation is the `done` event of
the schedule. -/
def Client.do (c : Client) (env : Env) (wf : Option (Nat × GoError)) (events : List Event)
    (w : World) (req : Request) : Outcome × World :=
  match c.postRequestMessage env wf w req with
  | (some err, w1) => (Outcome.returned (none, some err), w1)
  | (none, w1) => c.handleResponse env events w1 req

/-- The method `Client.Do`.  `marshal` is `json.Marshal` on the type of the body, `body` is
`none` for a nil body, and `uuid` is what `uuid.NewString()` returns on this call. -/
def Client.Do {β : Type} (c : Client) (env : Env) (marshal : β → Except GoError Bytes)
    (uuid : Bytes) (wf : Option (Nat × GoError)) (events : List Event) (w : World)
    (method url : Bytes) (body : Option β) : Outcome × World :=
  match body with
  | none => c.do env wf events w { UUID := uuid, Method := method, URL := url, Body := [] }
  | some b =>
    match marshal b with
    | .error err => (Outcome.returned (none, some err), w)
    | .ok bodyJSON =>
      let bodyString := bodyJSON
      let url1 := if method = utf8 "GET" then url ++ utf8 "?" ++ bodyJSON else url
      c.do env wf events w { UUID := uuid, Method := method, URL := url1, Body := bodyString }

/-! ## What a run leaves behind -/

/-- The file system after the Host Watcher's writes of a schedule, in order. -/
def hostWrites : List Event → FS → FS
  | [], fs => fs
  | Event.host p d :: es, fs => hostWrites es (fsWriteFile fs p d)
  | _ :: es, fs => hostWrites es fs

/-- The number of ticks in a schedule. -/
def countTicks : List Event → Nat
  | [] => 0
  | Event.tick _ :: es => countTicks es + 1
  | _ :: es => countTicks es

/-- Whether an operation is one of the wait loop: a call on the shared directory. -/
def isPoll : Call → Bool
  | Call.stat _ => true
  | Call.readFile _ => true
  | Call.removeAll _ => true
  | _ => false

/-- The payloads of the `Write` calls on the request stream among recorded operations. -/
def writesOf : List Call → List Bytes
  | [] => []
  | Call.write p :: cs => p :: writesOf cs
  | _ :: cs => writesOf cs

/-! ## Sample data -/

/-- Lower-case hexadecimal digit. -/
def hexDigit (n : Nat) : UInt8 := if n < 10 then UInt8.ofNat (0x30 + n) else UInt8.ofNat (0x57 + n)

/-- The inside of a JSON string as `json.Marshal` writes a Go string: the quote and the
backslash get a backslash, line feed, carriage return and tab their letter, the other control
bytes and `<`, `>`, `&` a `\u00XX`, an invalid byte `\ufffd`, U+2028 and U+2029 their `\u`
form; everything else is copied.  `copy` and `drop` count bytes of the current UTF-8
sequence still to be copied or left out. -/
def jsonQuoteBody : Nat → Nat → Bytes → Bytes
  | _, _, [] => []
  | copy + 1, _, c :: cs => c :: jsonQuoteBody copy 0 cs
  | 0, drop + 1, _ :: cs => jsonQuoteBody 0 drop cs
  | 0, 0, c :: cs =>
    if c == 0x22 || c == 0x5c then 0x5c :: c :: jsonQuoteBody 0 0 cs
    else if c == 0x0a then 0x5c :: 0x6e :: jsonQuoteBody 0 0 cs
    else if c == 0x0d then 0x5c :: 0x72 :: jsonQuoteBody 0 0 cs
    else if c == 0x09 then 0x5c :: 0x74 :: jsonQuoteBody 0 0 cs
    else if c < 0x20 || c == 0x3c || c == 0x3e || c == 0x26 then
      0x5c :: 0x75 :: 0x30 :: 0x30 :: hexDigit (c.toNat / 16) :: hexDigit (c.toNat % 16) ::
        jsonQuoteBody 0 0 cs
    else if c < 0x80 then c :: jsonQuoteBody 0 0 cs
    else
      match Json.utf8SeqLen c cs with
      | 0 => utf8 "\\ufffd" ++ jsonQuoteBody 0 0 cs
      | n + 1 =>
        if c == 0xE2 && cs.take 2 == [0x80, 0xA8] then utf8 "\\u2028" ++ jsonQuoteBody 0 2 cs
        else if c == 0xE2 && cs.take 2 == [0x80, 0xA9] then utf8 "\\u2029" ++ jsonQuoteBody 0 2 cs
        else c :: jsonQuoteBody n 0 cs

/-- A Go string as a JSON string. -/
def jsonQuote (s : Bytes) : Bytes := 0x22 :: jsonQuoteBody 0 0 s ++ [0x22]

/-- Modelled from the spec: the method `Request.toJSON`, which is not among the sources.  The
outbound wire format is one JSON object with the members `uuid`, `method`, `url` and `body`,
each a string; serializing four strings cannot fail. -/
def wireJSON (req : Request) : Except GoError Bytes :=
  .ok (utf8 "\x7b\"uuid\":" ++ jsonQuote req.UUID ++ utf8 ",\"method\":" ++ jsonQuote req.Method ++
    utf8 ",\"url\":" ++ jsonQuote req.URL ++ utf8 ",\"body\":" ++ jsonQuote req.Body ++ utf8 "\x7d")

/-- A target with a 32-bit `int` and the wire format of the spec. -/
def sampleEnv : Env := { intSize := 32, toJSON := wireJSON }

/-- A client on the shared directory `/mnt/out`. -/
def sampleClient : Client := NewClient (utf8 "/mnt/out")

/-- A request as `Client.Do` builds it for `GET https://api.example/v1/x` without a body. -/
def sampleReq : Request :=
  { UUID := utf8 "6f1c", Method := utf8 "GET", URL := utf8 "https://api.example/v1/x", Body := [] }

/-- A Response envelope that carries a result. -/
def okEnvelope : Bytes :=
  utf8 "\x7b\"result\":\"\x7b\\\"ok\\\":true\x7d\",\"error\":\"\",\"status_code\":200\x7d"

/-- A Response envelope that carries an error text. -/
def notFoundEnvelope : Bytes :=
  utf8 "\x7b\"result\":\"\",\"error\":\"not found\",\"status_code\":404\x7d"

/-- A Response envelope cut short. -/
def truncatedEnvelope : Bytes := utf8 "\x7b\"result\":\"\x7b\\\"ok"

/-- A world in which the Host Watcher has published `data` for `sampleReq`: the data entry
and the marker exist, beside an unrelated file. -/
def publishedWorld (data : Bytes) : World :=
  { stream := [],
    fs := [(utf8 "/mnt/out/6f1c.done", Node.file []), (utf8 "/mnt/out/6f1c", Node.file data),
           (utf8 "/mnt/out/other", Node.file (utf8 "x")), (utf8 "/mnt/out", Node.dir)],
    calls := [] }

/-- A world in which nothing has been published yet. -/
def emptyWorld : World :=
  { stream := utf8 "earlier line\n", fs := [(utf8 "/mnt/out", Node.dir)], calls := [] }

/-- A schedule in which the Host Watcher writes the data entry, the marker never appears and
the deadline passes after two ticks. -/
def lateSchedule : List Event :=
  [Event.tick noFaults, Event.host (utf8 "/mnt/out/6f1c") okEnvelope, Event.tick noFaults]

/-- A schedule in which the Host Watcher answers between two ticks. -/
def answeredSchedule : List Event :=
  [Event.tick noFaults, Event.host (utf8 "/mnt/out/6f1c") okEnvelope,
   Event.host (utf8 "/mnt/out/6f1c.done") [], Event.tick noFaults]


/-- The function `json.Marshal` on the body of the sample call, the map `{"a": 1}`. -/
def sampleMarshal (_ : Unit) : Except GoError Bytes := .ok (utf8 "\x7b\"a\":1\x7d")

/-- A Response envelope whose error text is itself a JSON object. -/
def structuredErrorEnvelope : Bytes :=
  utf8 "\x7b\"error\":\"\x7b\\\"error_code\\\":\\\"not_found\\\"\x7d\",\"status_code\":404\x7d"

/-- A world in which the data entry of `sampleReq` exists and its marker does not. -/
def unmarkedWorld : World :=
  { stream := [],
    fs := [(utf8 "/mnt/out/6f1c", Node.file okEnvelope), (utf8 "/mnt/out", Node.dir)],
    calls := [] }

/-- A world in which the marker of `sampleReq` exists and its data entry does not. -/
def markerOnlyWorld : World :=
  { stream := [],
    fs := [(utf8 "/mnt/out/6f1c.done", Node.file []), (utf8 "/mnt/out", Node.dir)],
    calls := [] }

/-- The serialization of `sampleReq` in the wire format. -/
def sampleLine : Bytes :=
  utf8 "\x7b\"uuid\":\"6f1c\",\"method\":\"GET\",\"url\":\"https://api.example/v1/x\",\"body\":\"\"\x7d"

/-! ## Lemmas on the JSON reader: the fuel is enough -/

namespace Json

theorem skipSpace_length_le : ∀ cs : Bytes, (skipSpace cs).length ≤ cs.length
  | [] => Nat.le_refl _
  | c :: cs => by
    unfold skipSpace
    split
    · exact Nat.le_succ_of_le (skipSpace_length_le cs)
    · exact Nat.le_refl _

/-- The string reader does not depend on its fuel once the fuel exceeds the input. -/
theorem scanString_fuel : ∀ (f f1 k : Nat) (cs : Bytes), cs.length < f → cs.length < f1 →
    scanString f k cs = scanString f1 k cs
  | 0, _, _, _, h, _ => absurd h (Nat.not_lt_zero _)
  | _ + 1, 0, _, _, _, h => absurd h (Nat.not_lt_zero _)
  | f + 1, f1 + 1, k, [], _, _ => by simp [scanString]
  | f + 1, f1 + 1, k + 1, c :: cs, h, h1 => by
    simp only [scanString]
    rw [scanString_fuel f f1 k cs (by simpa using h) (by simpa using h1)]
  | f + 1, f1 + 1, 0, c :: cs, h, h1 => by
    have hl : cs.length < f := by simpa using h
    have hl1 : cs.length < f1 := by simpa using h1
    have key : ∀ (k : Nat) (t : Bytes), t.length ≤ cs.length →
        scanString f k t = scanString f1 k t := fun k t ht =>
      scanString_fuel f f1 k t (Nat.lt_of_le_of_lt ht hl) (Nat.lt_of_le_of_lt ht hl1)
    simp only [scanString]
    split
    · rfl
    · split
      · split
        · rfl
        · rename_i e cs1
          split
          · split
            · rename_i x1 x2 x3 x4 cs2
              have hc2 : cs2.length ≤ (e :: x1 :: x2 :: x3 :: x4 :: cs2).length := by
                simp; omega
              split
              · rfl
              · split
                · split
                  · rename_i b u l1 l2 l3 l4 cs3
                    have hc3 : cs3.length ≤
                        (e :: x1 :: x2 :: x3 :: x4 :: b :: u :: l1 :: l2 :: l3 :: l4 :: cs3).length := by
                      simp; omega
                    split
                    · split
                      · rw [key 0 cs3 hc3]
                      · rw [key 0 _ hc2]
                    · rw [key 0 _ hc2]
                  · rw [key 0 _ hc2]
                · rw [key 0 _ hc2]
            · rfl
          · split
            · rfl
            · rw [key 0 cs1 (by simp)]
      · split
        · rfl
        · split
          · rw [key 0 cs (Nat.le_refl _)]
          · split
            · rw [key 0 cs (Nat.le_refl _)]
            · rw [key _ cs (Nat.le_refl _)]


theorem scanString_consumes : ∀ (f k : Nat) (cs s r : Bytes),
    scanString f k cs = some (s, r) → r.length < cs.length
  | 0, _, _, _, _, h => by simp [scanString] at h
  | f + 1, k, [], _, _, h => by simp [scanString] at h
  | f + 1, k + 1, c :: cs, s, r, h => by
    simp only [scanString, Option.map_eq_some', Prod.mk.injEq] at h
    obtain ⟨⟨a, b⟩, hh, -, rfl⟩ := h
    have := scanString_consumes f k cs a b hh
    simp only [List.length_cons]
    omega
  | f + 1, 0, c :: cs, s, r, h => by
    have ih := scanString_consumes f
    simp only [scanString] at h
    repeat (any_goals (split at h))
    all_goals first
      | (simp at h; done)
      | (simp only [Option.some.injEq, Prod.mk.injEq] at h
         obtain ⟨-, rfl⟩ := h
         simp)
      | (simp only [Option.map_eq_some', Prod.mk.injEq] at h
         obtain ⟨⟨a, b⟩, hh, -, rfl⟩ := h
         have := ih _ _ _ _ hh
         simp only [List.length_cons] at this ⊢
         omega)


theorem spanDigits_length_le : ∀ cs : Bytes, (spanDigits cs).2.length ≤ cs.length
  | [] => Nat.le_refl _
  | c :: cs => by
    unfold spanDigits
    split
    · exact Nat.le_succ_of_le (spanDigits_length_le cs)
    · exact Nat.le_refl _

theorem scanInt_consumes (input ip r : Bytes) (h : scanInt input = some (ip, r)) :
    r.length < input.length := by
  cases input with
  | nil => simp [scanInt] at h
  | cons d r1 =>
    simp only [scanInt] at h
    split at h
    · simp only [Option.some.injEq, Prod.mk.injEq] at h
      obtain ⟨-, rfl⟩ := h
      simp
    · split at h
      · simp only [Option.some.injEq, Prod.mk.injEq] at h
        obtain ⟨-, rfl⟩ := h
        have := spanDigits_length_le r1
        simp only [List.length_cons]
        omega
      · simp at h

theorem scanFrac_length_le (input fp r : Bytes) (h : scanFrac input = some (fp, r)) :
    r.length ≤ input.length := by
  cases input with
  | nil =>
    simp only [scanFrac, Option.some.injEq, Prod.mk.injEq] at h
    obtain ⟨-, rfl⟩ := h
    simp
  | cons c cs =>
    simp only [scanFrac] at h
    split at h
    · split at h
      · simp at h
      · simp only [Option.some.injEq, Prod.mk.injEq] at h
        obtain ⟨-, rfl⟩ := h
        have := spanDigits_length_le cs
        simp only [List.length_cons]
        omega
    · simp only [Option.some.injEq, Prod.mk.injEq] at h
      obtain ⟨-, rfl⟩ := h
      simp

theorem scanSign_length_le (input : Bytes) : (scanSign input).2.length ≤ input.length := by
  cases input with
  | nil => simp [scanSign]
  | cons s cs =>
    simp only [scanSign]
    split <;> simp

theorem scanExp_length_le (input ep r : Bytes) (h : scanExp input = some (ep, r)) :
    r.length ≤ input.length := by
  cases input with
  | nil =>
    simp only [scanExp, Option.some.injEq, Prod.mk.injEq] at h
    obtain ⟨-, rfl⟩ := h
    simp
  | cons c cs =>
    simp only [scanExp] at h
    split at h
    · split at h
      · simp at h
      · simp only [Option.some.injEq, Prod.mk.injEq] at h
        obtain ⟨-, rfl⟩ := h
        have h1 := spanDigits_length_le (scanSign cs).2
        have h2 := scanSign_length_le cs
        simp only [List.length_cons]
        omega
    · simp only [Option.some.injEq, Prod.mk.injEq] at h
      obtain ⟨-, rfl⟩ := h
      simp

theorem scanNumber_consumes (input n r : Bytes) (h : scanNumber input = some (n, r)) :
    r.length < input.length := by
  unfold scanNumber at h
  have hsr : (match input with
      | [] => (([], []) : Bytes × Bytes)
      | c :: cs => if c == 0x2d then ([c], cs) else ([], c :: cs)).2.length ≤ input.length := by
    cases input with
    | nil => simp
    | cons c cs => dsimp only; split <;> simp
  generalize (match input with
      | [] => (([], []) : Bytes × Bytes)
      | c :: cs => if c == 0x2d then ([c], cs) else ([], c :: cs)) = sr at h hsr
  dsimp only at h
  cases h1 : scanInt sr.2 with
  | none => simp [h1] at h
  | some a =>
    obtain ⟨ip, r1⟩ := a
    cases h2 : scanFrac r1 with
    | none => simp [h1, h2] at h
    | some b =>
      obtain ⟨fp, r2⟩ := b
      cases h3 : scanExp r2 with
      | none => simp [h1, h2, h3] at h
      | some e =>
        obtain ⟨ep, r3⟩ := e
        simp only [h1, h2, h3, Option.some.injEq, Prod.mk.injEq] at h
        obtain ⟨-, rfl⟩ := h
        have k1 := scanInt_consumes _ _ _ h1
        have k2 := scanFrac_length_le _ _ _ h2
        have k3 := scanExp_length_le _ _ _ h3
        omega

theorem expect_length_le : ∀ (lit input r : Bytes), expect lit input = some r →
    r.length ≤ input.length
  | [], input, r, h => by
    simp only [expect, Option.some.injEq] at h
    subst h
    exact Nat.le_refl _
  | _ :: _, [], r, h => by simp [expect] at h
  | l :: ls, c :: cs, r, h => by
    simp only [expect] at h
    split at h
    · exact Nat.le_succ_of_le (expect_length_le ls cs r h)
    · simp at h


/-- Every reader of the parser returns a proper suffix of its input. -/
theorem parse_consumes : ∀ f : Nat,
    (∀ (d : Nat) (input : Bytes) (v : Value) (r : Bytes),
        parseValue f d input = some (v, r) → r.length < input.length)
      ∧ (∀ (d : Nat) (input : Bytes) (acc : List Value) (v : Value) (r : Bytes),
        parseElems f d input acc = some (v, r) → r.length < input.length)
      ∧ (∀ (d : Nat) (input : Bytes) (acc : List (Bytes × Value)) (v : Value) (r : Bytes),
        parseMembers f d input acc = some (v, r) → r.length < input.length)
  | 0 => by
    refine ⟨?_, ?_, ?_⟩ <;> intros <;> simp_all [parseValue, parseElems, parseMembers]
  | f + 1 => by
    obtain ⟨ihV, ihE, ihM⟩ := parse_consumes f
    refine ⟨?_, ?_, ?_⟩
    · intro d input v r h
      cases input with
      | nil => simp [parseValue] at h
      | cons c cs =>
        have hsk := skipSpace_length_le cs
        cases hs : skipSpace cs with
        | nil =>
          simp only [parseValue, hs] at h
          split_ifs at h
          all_goals first
            | (simp at h; done)
            | (simp only [Option.map_eq_some', Prod.mk.injEq] at h
               obtain ⟨⟨a, b⟩, hh, -, rfl⟩ := h
               first
                 | (have hlen := scanString_consumes _ _ _ _ _ hh
                    simp only [List.length_cons]; omega)
                 | (have hlen := scanNumber_consumes _ _ _ hh
                    exact hlen))
            | (simp only [Option.map_eq_some', Prod.mk.injEq] at h
               obtain ⟨a, hh, -, rfl⟩ := h
               have := expect_length_le _ _ _ hh
               simp only [List.length_cons]; omega)
        | cons x ds =>
          rw [hs] at hsk
          simp only [List.length_cons] at hsk
          simp only [parseValue, hs] at h
          split_ifs at h
          all_goals first
            | (simp at h; done)
            | (simp only [Option.some.injEq, Prod.mk.injEq] at h
               obtain ⟨-, rfl⟩ := h
               simp only [List.length_cons]; omega)
            | (have hlen := ihM _ _ _ _ _ h
               simp only [List.length_cons] at hlen ⊢; omega)
            | (have hlen := ihE _ _ _ _ _ h
               simp only [List.length_cons] at hlen ⊢; omega)
            | (simp only [Option.map_eq_some', Prod.mk.injEq] at h
               obtain ⟨⟨a, b⟩, hh, -, rfl⟩ := h
               first
                 | (have hlen := scanString_consumes _ _ _ _ _ hh
                    simp only [List.length_cons]; omega)
                 | (have hlen := scanNumber_consumes _ _ _ hh
                    exact hlen))
            | (simp only [Option.map_eq_some', Prod.mk.injEq] at h
               obtain ⟨a, hh, -, rfl⟩ := h
               have := expect_length_le _ _ _ hh
               simp only [List.length_cons]; omega)
    · intro d input acc v r h
      simp only [parseElems] at h
      cases hv : parseValue f d input with
      | none => simp [hv] at h
      | some a =>
        obtain ⟨v1, r1⟩ := a
        have k1 := ihV _ _ _ _ hv
        have k2 := skipSpace_length_le r1
        cases hs : skipSpace r1 with
        | nil => simp [hv, hs] at h
        | cons x ds =>
          rw [hs] at k2
          simp only [List.length_cons] at k2
          have k3 := skipSpace_length_le ds
          simp only [hv, hs] at h
          split_ifs at h
          · have := ihE _ _ _ _ _ h
            omega
          · simp only [Option.some.injEq, Prod.mk.injEq] at h
            obtain ⟨-, rfl⟩ := h
            omega
    · intro d input acc v r h
      cases input with
      | nil => simp [parseMembers] at h
      | cons q cs =>
        simp only [parseMembers] at h
        split_ifs at h
        cases hk : scanString (cs.length + 1) 0 cs with
        | none => simp [hk] at h
        | some a =>
          obtain ⟨key, r0⟩ := a
          have k0 := scanString_consumes _ _ _ _ _ hk
          have k1 := skipSpace_length_le r0
          cases hs : skipSpace r0 with
          | nil => simp [hk, hs] at h
          | cons colon r1 =>
            rw [hs] at k1
            simp only [List.length_cons] at k1
            have k2 := skipSpace_length_le r1
            simp only [hk, hs] at h
            split_ifs at h
            cases hv : parseValue f d (skipSpace r1) with
            | none => simp [hv] at h
            | some b =>
              obtain ⟨v1, r2⟩ := b
              have k3 := ihV _ _ _ _ hv
              have k4 := skipSpace_length_le r2
              cases hs2 : skipSpace r2 with
              | nil => simp [hv, hs2] at h
              | cons x ds =>
                rw [hs2] at k4
                simp only [List.length_cons] at k4
                have k5 := skipSpace_length_le ds
                simp only [hv, hs2] at h
                split_ifs at h
                · have := ihM _ _ _ _ _ h
                  simp only [List.length_cons]
                  omega
                · simp only [Option.some.injEq, Prod.mk.injEq] at h
                  obtain ⟨-, rfl⟩ := h
                  simp only [List.length_cons]
                  omega


/-- The parser does not depend on its fuel once the fuel is twice the length of the input
(plus one for a value, plus two for the rest of an array or an object). -/
theorem parse_fuel : ∀ f f1 : Nat,
    (∀ (d : Nat) (input : Bytes), 2 * input.length + 1 ≤ f → 2 * input.length + 1 ≤ f1 →
        parseValue f d input = parseValue f1 d input)
      ∧ (∀ (d : Nat) (input : Bytes) (acc : List Value),
        2 * input.length + 2 ≤ f → 2 * input.length + 2 ≤ f1 →
        parseElems f d input acc = parseElems f1 d input acc)
      ∧ (∀ (d : Nat) (input : Bytes) (acc : List (Bytes × Value)),
        2 * input.length + 2 ≤ f → 2 * input.length + 2 ≤ f1 →
        parseMembers f d input acc = parseMembers f1 d input acc)
  | 0, _ => by
    refine ⟨?_, ?_, ?_⟩ <;> intros <;> omega
  | _ + 1, 0 => by
    refine ⟨?_, ?_, ?_⟩ <;> intros <;> omega
  | f + 1, f1 + 1 => by
    obtain ⟨ihV, ihE, ihM⟩ := parse_fuel f f1
    refine ⟨?_, ?_, ?_⟩
    · intro d input h h1
      cases input with
      | nil => simp [parseValue]
      | cons c cs =>
        simp only [List.length_cons] at h h1
        have hsk := skipSpace_length_le cs
        cases hs : skipSpace cs with
        | nil => simp only [parseValue, hs]
        | cons x ds =>
          rw [hs] at hsk
          simp only [List.length_cons] at hsk
          have e1 : ∀ acc, parseMembers f (d + 1) (x :: ds) acc
              = parseMembers f1 (d + 1) (x :: ds) acc := fun acc =>
            ihM _ _ _ (by simp only [List.length_cons]; omega)
              (by simp only [List.length_cons]; omega)
          have e2 : ∀ acc, parseElems f (d + 1) (x :: ds) acc
              = parseElems f1 (d + 1) (x :: ds) acc := fun acc =>
            ihE _ _ _ (by simp only [List.length_cons]; omega)
              (by simp only [List.length_cons]; omega)
          simp only [parseValue, hs, e1, e2]
    · intro d input acc h h1
      simp only [parseElems]
      rw [ihV d input (by omega) (by omega)]
      cases hv : parseValue f1 d input with
      | none => rfl
      | some a =>
        obtain ⟨v1, r1⟩ := a
        have k1 := (parse_consumes f1).1 _ _ _ _ hv
        have k2 := skipSpace_length_le r1
        dsimp only
        cases hs : skipSpace r1 with
        | nil => rfl
        | cons x ds =>
          rw [hs] at k2
          simp only [List.length_cons] at k2
          have k3 := skipSpace_length_le ds
          dsimp only
          rw [ihE d (skipSpace ds) (acc ++ [v1]) (by omega) (by omega)]
    · intro d input acc h h1
      cases input with
      | nil => simp [parseMembers]
      | cons q cs =>
        simp only [List.length_cons] at h h1
        simp only [parseMembers]
        cases hk : scanString (cs.length + 1) 0 cs with
        | none => rfl
        | some a =>
          obtain ⟨key, r0⟩ := a
          have k0 := scanString_consumes _ _ _ _ _ hk
          have k1 := skipSpace_length_le r0
          dsimp only
          cases hs : skipSpace r0 with
          | nil => rfl
          | cons colon r1 =>
            rw [hs] at k1
            simp only [List.length_cons] at k1
            have k2 := skipSpace_length_le r1
            dsimp only
            rw [ihV d (skipSpace r1) (by omega) (by omega)]
            cases hv : parseValue f1 d (skipSpace r1) with
            | none => rfl
            | some b =>
              obtain ⟨v1, r2⟩ := b
              have k3 := (parse_consumes f1).1 _ _ _ _ hv
              have k4 := skipSpace_length_le r2
              dsimp only
              cases hs2 : skipSpace r2 with
              | nil => rfl
              | cons x ds =>
                rw [hs2] at k4
                simp only [List.length_cons] at k4
                have k5 := skipSpace_length_le ds
                dsimp only
                rw [ihM d (skipSpace ds) (acc ++ [(key, v1)]) (by omega) (by omega)]

/-- The fuel `parseText` gives the parser is enough: more fuel reads the same value. -/
theorem parseText_fuel (data : Bytes) (n : Nat) (h : 2 * data.length + 2 ≤ n) :
    parseValue n 0 (skipSpace data) = parseValue (2 * data.length + 2) 0 (skipSpace data) :=
  (parse_fuel n (2 * data.length + 2)).1 0 (skipSpace data)
    (by have := skipSpace_length_le data; omega)
    (by have := skipSpace_length_le data; omega)

end Json

/-! ## Lemmas on the file system -/

theorem fsLookup_filter_none (f : Bytes × Node → Bool) (p : Bytes) :
    ∀ fs : FS, fsLookup fs p = none → fsLookup (fs.filter f) p = none
  | [], _ => rfl
  | (q, n) :: rest, h => by
    by_cases hq : q = p
    · simp [fsLookup, hq] at h
    · have hr : fsLookup rest p = none := by simpa [fsLookup, hq] using h
      by_cases hf : f (q, n) = true
      · simp [List.filter, hf, fsLookup, hq, fsLookup_filter_none f p rest hr]
      · simp [List.filter, hf, fsLookup_filter_none f p rest hr]

theorem fsLookup_removeAll_self (p : Bytes) :
    ∀ fs : FS, fsLookup (fsRemoveAll fs p) p = none
  | [] => rfl
  | (q, n) :: rest => by
    have ih := fsLookup_removeAll_self p rest
    unfold fsRemoveAll at ih ⊢
    by_cases hu : isUnder p q = true
    · simp [List.filter, hu, ih]
    · have hq : q ≠ p := by
        intro h
        apply hu
        simp [isUnder, h]
      simp [List.filter, hu, fsLookup, hq, ih]

theorem fsLookup_removeAll_none (fs : FS) (p q : Bytes) (h : fsLookup fs q = none) :
    fsLookup (fsRemoveAll fs p) q = none :=
  fsLookup_filter_none _ q fs h

/-! ## Lemmas on the client -/

theorem writesOf_append (a b : List Call) : writesOf (a ++ b) = writesOf a ++ writesOf b := by
  induction a with
  | nil => rfl
  | cons x xs ih => cases x <;> simp [writesOf, ih]

/-- Whatever the error text, a Response with a non-empty error field is answered with the
value of `NewAPIError` on a nil `*APIErrorResponse`: decoding into the nil `errRes` fails on
every input, so the branch after it is never reached. -/
theorem parseResponse_of_error (c : Client) (env : Env) (req : Request) (data : Bytes)
    (res : Response) (h : Json.unmarshalResponse env.intSize data = .ok res)
    (he : res.Error ≠ []) :
    c.parseResponse env req data
      = (none, some (NewAPIError req.Method req.URL req.Body res.StatusCode none)) := by
  unfold Client.parseResponse
  rw [h]
  simp only [he, ne_eq, not_false_eq_true, if_true]
  cases hv : Json.checkValid res.Error <;> simp [Json.unmarshalNil, hv]

theorem parseResponse_of_result (c : Client) (env : Env) (req : Request) (data : Bytes)
    (res : Response) (h : Json.unmarshalResponse env.intSize data = .ok res)
    (he : res.Error = []) :
    c.parseResponse env req data = (some res.Result, none) := by
  unfold Client.parseResponse
  rw [h]
  simp [he]

theorem parseResponse_of_decode_error (c : Client) (env : Env) (req : Request) (data : Bytes)
    (err : GoError) (h : Json.unmarshalResponse env.intSize data = .error err) :
    c.parseResponse env req data = (none, some err) := by
  unfold Client.parseResponse
  rw [h]

theorem unmarshalResponse_invalid (bits : Nat) (data : Bytes) (h : Json.checkValid data = false) :
    Json.unmarshalResponse bits data = .error GoError.jsonSyn := by
  unfold Json.checkValid at h
  unfold Json.unmarshalResponse
  cases hp : Json.parseText data with
  | none => rfl
  | some v => simp [hp] at h

/-- One tick on which `os.Stat` of the marker fails: the loop goes on, and only the `Stat`
call is recorded. -/
theorem handleResponse_tick_unseen (c : Client) (env : Env) (io : Faults) (es : List Event)
    (w : World) (req : Request) (err : GoError)
    (h : osStat io w.fs (c.responseJobFileName req) = some err) :
    c.handleResponse env (Event.tick io :: es) w req
      = c.handleResponse env es (w.log (Call.stat (c.responseJobFileName req))) req := by
  simp only [Client.handleResponse, World.log, h]

/-- One tick on which the marker is observed, the data entry read and both entries removed. -/
theorem handleResponse_tick_consumed (c : Client) (env : Env) (io : Faults) (es : List Event)
    (w : World) (req : Request) (data : Bytes)
    (hs : osStat io w.fs (c.responseJobFileName req) = none)
    (hr : osReadFile io w.fs (c.responseDataFileName req) = .ok data)
    (h1 : io (Call.removeAll (c.responseJobFileName req)) = false)
    (h2 : io (Call.removeAll (c.responseDataFileName req)) = false) :
    c.handleResponse env (Event.tick io :: es) w req
      = (Outcome.returned (c.parseResponse env req data),
         { stream := w.stream,
           fs := fsRemoveAll (fsRemoveAll w.fs (c.responseJobFileName req))
             (c.responseDataFileName req),
           calls := w.calls ++ [Call.stat (c.responseJobFileName req),
             Call.readFile (c.responseDataFileName req),
             Call.removeAll (c.responseJobFileName req),
             Call.removeAll (c.responseDataFileName req)] }) := by
  simp [Client.handleResponse, World.log, hs, hr, osRemoveAll, h1, h2]

/-- The wait loop leaves the request stream alone. -/
theorem handleResponse_stream (c : Client) (env : Env) (req : Request) :
    ∀ (es : List Event) (w : World),
      (c.handleResponse env es w req).2.stream = w.stream
        ∧ writesOf (c.handleResponse env es w req).2.calls = writesOf w.calls
  | [], w => ⟨rfl, rfl⟩
  | Event.host p d :: es, w => by
    simpa [Client.handleResponse] using
      handleResponse_stream c env req es { w with fs := fsWriteFile w.fs p d }
  | Event.done e :: es, w => ⟨rfl, rfl⟩
  | Event.tick io :: es, w => by
    have ih := handleResponse_stream c env req es
      (w.log (Call.stat (c.responseJobFileName req)))
    simp only [Client.handleResponse]
    split
    · simpa [World.log, writesOf_append, writesOf] using ih
    · split
      · simp [World.log, writesOf_append, writesOf]
      · split
        · simp [World.log, writesOf_append, writesOf]
        · split <;> simp [World.log, writesOf_append, writesOf]

/-- The wait loop only adds calls on the shared directory to the record of operations: it
never touches the lock or the stream. -/
theorem handleResponse_calls (c : Client) (env : Env) (req : Request) :
    ∀ (es : List Event) (w : World),
      ∃ polls, (c.handleResponse env es w req).2.calls = w.calls ++ polls
        ∧ polls.all isPoll = true
  | [], w => ⟨[], by simp [Client.handleResponse]⟩
  | Event.host p d :: es, w => by
    simpa [Client.handleResponse] using
      handleResponse_calls c env req es { w with fs := fsWriteFile w.fs p d }
  | Event.done e :: es, w => ⟨[], by simp [Client.handleResponse]⟩
  | Event.tick io :: es, w => by
    obtain ⟨polls, h1, h2⟩ := handleResponse_calls c env req es
      (w.log (Call.stat (c.responseJobFileName req)))
    simp only [Client.handleResponse]
    split
    · exact ⟨Call.stat (c.responseJobFileName req) :: polls,
        by simpa [World.log] using h1, by simpa [isPoll] using h2⟩
    · split
      · exact ⟨[Call.stat (c.responseJobFileName req),
          Call.readFile (c.responseDataFileName req)], by simp [World.log], by simp [isPoll]⟩
      · split
        · exact ⟨[Call.stat (c.responseJobFileName req),
            Call.readFile (c.responseDataFileName req),
            Call.removeAll (c.responseJobFileName req)], by simp [World.log], by simp [isPoll]⟩
        · split <;>
            exact ⟨[Call.stat (c.responseJobFileName req),
              Call.readFile (c.responseDataFileName req),
              Call.removeAll (c.responseJobFileName req),
              Call.removeAll (c.responseDataFileName req)], by simp [World.log],
              by simp [isPoll]⟩

/-- The order of operations of one call of `Client.do` whose request serializes and whose
write succeeds: the lock is taken, the line written, the lock released, and only then does
the wait loop work on the shared directory. -/
theorem do_call_order (c : Client) (env : Env) (events : List Event) (w : World)
    (req : Request) (data : Bytes) (h : env.toJSON req = .ok data) :
    ∃ polls, (c.do env none events w req).2.calls
        = w.calls ++ [Call.lock, Call.write (data ++ [0x0a]), Call.unlock] ++ polls
      ∧ polls.all isPoll = true := by
  obtain ⟨polls, h1, h2⟩ := handleResponse_calls c env req events
    (({ (w.log Call.lock).log (Call.write (data ++ utf8 "\n")) with
        stream := w.stream ++ (data ++ utf8 "\n") }).log Call.unlock)
  refine ⟨polls, ?_, h2⟩
  simp only [Client.do, Client.postRequestMessage, h]
  refine h1.trans ?_
  simp [World.log]
  rfl

/-! ## The claims -/

/-- C1: `Client.Do` hands to `Client.do` the Request whose URL is the target followed by a
question mark and the serialized body when the method is exactly GET and the body is not nil,
whose URL is the target for any other method, and whose Body is the serialization; for a nil
body the URL is the target and the Body is empty.  Nothing is URL-encoded. -/
theorem Do_hands_request {β : Type} (c : Client) (env : Env)
    (marshal : β → Except GoError Bytes) (uuid : Bytes) (wf : Option (Nat × GoError))
    (events : List Event) (w : World) (method target : Bytes) (b : β) (s : Bytes)
    (hs : marshal b = .ok s) :
    c.Do env marshal uuid wf events w (utf8 "GET") target (some b)
        = c.do env wf events w
            { UUID := uuid, Method := utf8 "GET", URL := target ++ utf8 "?" ++ s, Body := s }
      ∧ (method ≠ utf8 "GET" →
          c.Do env marshal uuid wf events w method target (some b)
            = c.do env wf events w { UUID := uuid, Method := method, URL := target, Body := s })
      ∧ c.Do env marshal uuid wf events w method target none
          = c.do env wf events w { UUID := uuid, Method := method, URL := target, Body := [] } := by
  refine ⟨?_, ?_, ?_⟩
  · simp [Client.Do, hs]
  · intro hm
    simp [Client.Do, hs, hm]
  · rfl

/-- C1 at the call `GET https://api.example/v1/x` with the body `{"a":1}`. -/
theorem Do_hands_request_witness :
    sampleClient.Do sampleEnv sampleMarshal (utf8 "6f1c") none answeredSchedule emptyWorld
        (utf8 "GET") (utf8 "https://api.example/v1/x") (some ())
      = sampleClient.do sampleEnv none answeredSchedule emptyWorld
          { UUID := utf8 "6f1c", Method := utf8 "GET",
            URL := utf8 "https://api.example/v1/x?\x7b\"a\":1\x7d",
            Body := utf8 "\x7b\"a\":1\x7d" } :=
  (Do_hands_request sampleClient sampleEnv sampleMarshal (utf8 "6f1c") none answeredSchedule
    emptyWorld (utf8 "POST") (utf8 "https://api.example/v1/x") () (utf8 "\x7b\"a\":1\x7d") rfl).1

/-- C2: on a tick without I/O error, when the marker entry exists and the data entry holds a
Response envelope whose error field is empty, `handleResponse` returns the bytes of the
result field with a nil error, and afterwards neither the marker nor the data entry exists. -/
theorem handleResponse_tick_answered (c : Client) (env : Env) (es : List Event) (w : World)
    (req : Request) (data : Bytes) (res : Response)
    (hm : fsLookup w.fs (c.responseJobFileName req) ≠ none)
    (hd : fsLookup w.fs (c.responseDataFileName req) = some (Node.file data))
    (hres : Json.unmarshalResponse env.intSize data = .ok res)
    (herr : res.Error = []) :
    (c.handleResponse env (Event.tick noFaults :: es) w req).1
        = Outcome.returned (some res.Result, none)
      ∧ fsLookup (c.handleResponse env (Event.tick noFaults :: es) w req).2.fs
          (c.responseJobFileName req) = none
      ∧ fsLookup (c.handleResponse env (Event.tick noFaults :: es) w req).2.fs
          (c.responseDataFileName req) = none := by
  have hs : osStat noFaults w.fs (c.responseJobFileName req) = none := by
    cases hl : fsLookup w.fs (c.responseJobFileName req) with
    | none => exact absurd hl hm
    | some n => simp [osStat, noFaults, hl]
  have hr : osReadFile noFaults w.fs (c.responseDataFileName req) = .ok data := by
    simp [osReadFile, noFaults, hd]
  rw [handleResponse_tick_consumed c env noFaults es w req data hs hr rfl rfl,
    parseResponse_of_result c env req data res hres herr]
  exact ⟨rfl, fsLookup_removeAll_none _ _ _ (fsLookup_removeAll_self _ _),
    fsLookup_removeAll_self _ _⟩

/-- C2 at the envelope with result `{"ok":true}`, an empty error and status code 200. -/
theorem handleResponse_tick_answered_witness :
    (sampleClient.handleResponse sampleEnv (Event.tick noFaults :: [])
        (publishedWorld okEnvelope) sampleReq).1
        = Outcome.returned (some (utf8 "\x7b\"ok\":true\x7d"), none)
      ∧ fsLookup (sampleClient.handleResponse sampleEnv (Event.tick noFaults :: [])
          (publishedWorld okEnvelope) sampleReq).2.fs (utf8 "/mnt/out/6f1c.done") = none
      ∧ fsLookup (sampleClient.handleResponse sampleEnv (Event.tick noFaults :: [])
          (publishedWorld okEnvelope) sampleReq).2.fs (utf8 "/mnt/out/6f1c") = none :=
  handleResponse_tick_answered sampleClient sampleEnv [] (publishedWorld okEnvelope) sampleReq
    okEnvelope { Result := utf8 "\x7b\"ok\":true\x7d", Error := [], StatusCode := 200 }
    (by decide) rfl rfl rfl

/-- C3: for a Response envelope whose error field is not empty, `parseResponse` returns a nil
payload and a non-nil error, whatever the result field holds; it does not return a nil error
with an empty payload. -/
theorem parseResponse_error_field (c : Client) (env : Env) (req : Request) (data : Bytes)
    (res : Response) (h : Json.unmarshalResponse env.intSize data = .ok res)
    (he : res.Error ≠ []) :
    (c.parseResponse env req data).1 = none
      ∧ (c.parseResponse env req data).2 ≠ none
      ∧ c.parseResponse env req data ≠ (some [], none) := by
  rw [parseResponse_of_error c env req data res h he]
  simp

/-- C3 at the envelope with error `not found` and status code 404. -/
theorem parseResponse_error_field_witness :
    (sampleClient.parseResponse sampleEnv sampleReq notFoundEnvelope).1 = none
      ∧ (sampleClient.parseResponse sampleEnv sampleReq notFoundEnvelope).2 ≠ none
      ∧ sampleClient.parseResponse sampleEnv sampleReq notFoundEnvelope ≠ (some [], none) :=
  parseResponse_error_field sampleClient sampleEnv sampleReq notFoundEnvelope
    { Result := [], Error := utf8 "not found", StatusCode := 404 } rfl (by decide)

/-- C4, the code at the failing inputs: for the error text `not found`, which is not JSON,
`parseResponse` does not return the error `unknown error: not found` but the value of
`NewAPIError` with a nil `*APIErrorResponse`; and for an error text that is a JSON object it
returns the same, nothing of the object being decoded. -/
theorem parseResponse_plain_error_text :
    sampleClient.parseResponse sampleEnv sampleReq notFoundEnvelope
        = (none, some (NewAPIError (utf8 "GET") (utf8 "https://api.example/v1/x") [] 404 none))
      ∧ sampleClient.parseResponse sampleEnv sampleReq notFoundEnvelope
        ≠ (none, some (GoError.errorf (utf8 "unknown error: not found")))
      ∧ sampleClient.parseResponse sampleEnv sampleReq structuredErrorEnvelope
        = (none, some (NewAPIError (utf8 "GET") (utf8 "https://api.example/v1/x") [] 404 none)) := by
  refine ⟨rfl, ?_, rfl⟩
  decide

/-- A tick on which the marker is observed ends the call: it does not leave it waiting. -/
theorem handleResponse_tick_seen_returns (c : Client) (env : Env) (io : Faults)
    (es : List Event) (w : World) (req : Request)
    (hs : osStat io w.fs (c.responseJobFileName req) = none) :
    (c.handleResponse env (Event.tick io :: es) w req).1 ≠ Outcome.waiting := by
  simp only [Client.handleResponse, World.log, hs]
  split
  · simp
  · split
    · simp
    · split <;> simp

/-- C5: when the context is done while no tick has observed the marker, `handleResponse`
returns a nil payload and the error `request canceled: ` followed by the context's error, and
it deletes nothing: the file system holds what it held plus what the Host Watcher wrote
meanwhile, and the client has performed no operation but `Stat` on the marker. -/
theorem handleResponse_canceled (c : Client) (env : Env) (req : Request) (e : CtxErr)
    (pre rest : List Event) (w : World)
    (h : (c.handleResponse env pre w req).1 = Outcome.waiting) :
    c.handleResponse env (pre ++ Event.done e :: rest) w req
      = (Outcome.returned (none, some (GoError.errorf (utf8 "request canceled: " ++ e.Error))),
         { stream := w.stream, fs := hostWrites pre w.fs,
           calls := w.calls ++
             List.replicate (countTicks pre) (Call.stat (c.responseJobFileName req)) }) := by
  induction pre generalizing w with
  | nil => simp [Client.handleResponse, hostWrites, countTicks]
  | cons ev pre ih =>
    cases ev with
    | host p d =>
      have h1 := ih { w with fs := fsWriteFile w.fs p d }
        (by simpa [Client.handleResponse] using h)
      simpa [Client.handleResponse, hostWrites, countTicks] using h1
    | done e1 => simp [Client.handleResponse] at h
    | tick io =>
      cases hst : osStat io w.fs (c.responseJobFileName req) with
      | none => exact absurd h (handleResponse_tick_seen_returns c env io pre w req hst)
      | some err =>
        rw [handleResponse_tick_unseen c env io pre w req err hst] at h
        rw [List.cons_append, handleResponse_tick_unseen c env io _ w req err hst,
          ih (w.log (Call.stat (c.responseJobFileName req))) h]
        simp [World.log, hostWrites, countTicks, List.replicate_succ]

/-- C5 at a deadline that passes after two ticks, the Host Watcher having written the data
entry but not the marker: the data entry stays. -/
theorem handleResponse_canceled_witness :
    sampleClient.handleResponse sampleEnv
        (lateSchedule ++ Event.done CtxErr.deadlineExceeded :: []) emptyWorld sampleReq
      = (Outcome.returned
          (none, some (GoError.errorf (utf8 "request canceled: context deadline exceeded"))),
         { stream := emptyWorld.stream,
           fs := [(utf8 "/mnt/out/6f1c", Node.file okEnvelope), (utf8 "/mnt/out", Node.dir)],
           calls := [Call.stat (utf8 "/mnt/out/6f1c.done"), Call.stat (utf8 "/mnt/out/6f1c.done")] }) :=
  handleResponse_canceled sampleClient sampleEnv sampleReq CtxErr.deadlineExceeded
    lateSchedule [] emptyWorld rfl

/-- C6: when the bytes do not decode as a Response envelope, `parseResponse` returns a nil
payload and the decoder's error; for bytes that are not JSON at all that error is the syntax
error.  `parseResponse` is a total function: it has a value on every input. -/
theorem parseResponse_malformed (c : Client) (env : Env) (req : Request) (data : Bytes) :
    (∀ err, Json.unmarshalResponse env.intSize data = .error err →
        c.parseResponse env req data = (none, some err))
      ∧ (Json.checkValid data = false →
        c.parseResponse env req data = (none, some GoError.jsonSyn)) :=
  ⟨fun err h => parseResponse_of_decode_error c env req data err h,
   fun h => parseResponse_of_decode_error c env req data _
     (unmarshalResponse_invalid env.intSize data h)⟩

/-- C6 at an envelope cut short inside its result string. -/
theorem parseResponse_malformed_witness :
    Json.checkValid truncatedEnvelope = false
      ∧ sampleClient.parseResponse sampleEnv sampleReq truncatedEnvelope
        = (none, some GoError.jsonSyn) :=
  ⟨rfl, (parseResponse_malformed sampleClient sampleEnv sampleReq truncatedEnvelope).2 rfl⟩

/-- C7: a call of `Client.do` whose request serializes and whose stream write succeeds appends
to the stream the serialization followed by one line feed and nothing else, after what the
stream held, and performs that one `Write`, however the wait goes on and ends. -/
theorem do_writes_one_line (c : Client) (env : Env) (events : List Event) (w : World)
    (req : Request) (data : Bytes) (h : env.toJSON req = .ok data) :
    (c.do env none events w req).2.stream = w.stream ++ (data ++ [0x0a])
      ∧ writesOf (c.do env none events w req).2.calls
        = writesOf w.calls ++ [data ++ [0x0a]] := by
  have hs := handleResponse_stream c env req events
    (({ (w.log Call.lock).log (Call.write (data ++ utf8 "\n")) with
        stream := w.stream ++ (data ++ utf8 "\n") }).log Call.unlock)
  simp only [Client.do, Client.postRequestMessage, h]
  refine ⟨hs.1.trans ?_, hs.2.trans ?_⟩
  · rfl
  · simp [World.log, writesOf_append, writesOf]
    rfl

set_option maxRecDepth 4000 in
/-- C7 at a wait that ends in an answer and at one that ends in a timeout. -/
theorem do_writes_one_line_witness :
    (sampleClient.do sampleEnv none answeredSchedule emptyWorld sampleReq).2.stream
        = utf8 "earlier line\n" ++ (sampleLine ++ [0x0a])
      ∧ writesOf (sampleClient.do sampleEnv none
          (lateSchedule ++ Event.done CtxErr.deadlineExceeded :: []) emptyWorld sampleReq).2.calls
        = writesOf emptyWorld.calls ++ [sampleLine ++ [0x0a]] :=
  ⟨(do_writes_one_line sampleClient sampleEnv answeredSchedule emptyWorld sampleReq sampleLine
      rfl).1,
   (do_writes_one_line sampleClient sampleEnv
      (lateSchedule ++ Event.done CtxErr.deadlineExceeded :: []) emptyWorld sampleReq sampleLine
      rfl).2⟩

/-- C9: on a tick at which the marker entry does not exist, the loop goes on with the rest
of the schedule; the file system is as it was, the data entry included, and the only
operation performed is the `Stat` of the marker: the data entry is neither read nor
removed.  If the schedule ends there the call is still waiting. -/
theorem handleResponse_tick_marker_absent (c : Client) (env : Env) (io : Faults)
    (es : List Event) (w : World) (req : Request)
    (h : fsLookup w.fs (c.responseJobFileName req) = none) :
    c.handleResponse env (Event.tick io :: es) w req
        = c.handleResponse env es
            { stream := w.stream, fs := w.fs,
              calls := w.calls ++ [Call.stat (c.responseJobFileName req)] } req
      ∧ c.handleResponse env (Event.tick io :: []) w req
        = (Outcome.waiting,
            { stream := w.stream, fs := w.fs,
              calls := w.calls ++ [Call.stat (c.responseJobFileName req)] }) := by
  have hs : ∃ err, osStat io w.fs (c.responseJobFileName req) = some err := by
    unfold osStat
    split
    · exact ⟨_, rfl⟩
    · simp [h]
  obtain ⟨err, hs⟩ := hs
  exact ⟨handleResponse_tick_unseen c env io es w req err hs,
    handleResponse_tick_unseen c env io [] w req err hs⟩

/-- C9 at a world in which the data entry is already there and the marker is not. -/
theorem handleResponse_tick_marker_absent_witness :
    sampleClient.handleResponse sampleEnv (Event.tick noFaults :: []) unmarkedWorld sampleReq
      = (Outcome.waiting,
          { stream := [],
            fs := [(utf8 "/mnt/out/6f1c", Node.file okEnvelope), (utf8 "/mnt/out", Node.dir)],
            calls := [Call.stat (utf8 "/mnt/out/6f1c.done")] }) :=
  (handleResponse_tick_marker_absent sampleClient sampleEnv noFaults [] unmarkedWorld sampleReq
    (by decide)).2

/-- C10, the claim refuted: on the envelope with error `not found`, and on an envelope that
is cut short, `handleResponse` returns an error although the marker and the data entry, both
there before the call, are both gone after it. -/
theorem handleResponse_error_after_cleanup :
    (sampleClient.handleResponse sampleEnv (Event.tick noFaults :: [])
        (publishedWorld notFoundEnvelope) sampleReq).1
        = Outcome.returned
            (none, some (NewAPIError (utf8 "GET") (utf8 "https://api.example/v1/x") [] 404 none))
      ∧ fsLookup (publishedWorld notFoundEnvelope).fs (utf8 "/mnt/out/6f1c.done")
        = some (Node.file [])
      ∧ fsLookup (publishedWorld notFoundEnvelope).fs (utf8 "/mnt/out/6f1c")
        = some (Node.file notFoundEnvelope)
      ∧ fsLookup (sampleClient.handleResponse sampleEnv (Event.tick noFaults :: [])
          (publishedWorld notFoundEnvelope) sampleReq).2.fs (utf8 "/mnt/out/6f1c.done") = none
      ∧ fsLookup (sampleClient.handleResponse sampleEnv (Event.tick noFaults :: [])
          (publishedWorld notFoundEnvelope) sampleReq).2.fs (utf8 "/mnt/out/6f1c") = none
      ∧ sampleClient.handleResponse sampleEnv (Event.tick noFaults :: [])
          (publishedWorld truncatedEnvelope) sampleReq
        = (Outcome.returned (none, some GoError.jsonSyn),
            { stream := [],
              fs := [(utf8 "/mnt/out/other", Node.file (utf8 "x")), (utf8 "/mnt/out", Node.dir)],
              calls := [Call.stat (utf8 "/mnt/out/6f1c.done"),
                Call.readFile (utf8 "/mnt/out/6f1c"),
                Call.removeAll (utf8 "/mnt/out/6f1c.done"),
                Call.removeAll (utf8 "/mnt/out/6f1c")] }) :=
  ⟨rfl, rfl, rfl, rfl, rfl, rfl⟩

/-- C10 as amended: a call that ends in a timeout, or in a failure to read the data entry
after the marker was observed, has removed nothing; once the data entry is read and the two
removals succeed, both entries are gone before the envelope is decoded, and the call returns
what `parseResponse` yields, a payload or an error alike. -/
theorem handleResponse_cleanup_before_decode (c : Client) (env : Env) (io : Faults)
    (es : List Event) (w : World) (req : Request) :
    (∀ e, (c.handleResponse env (Event.done e :: es) w req).2 = w)
      ∧ (∀ err, osStat io w.fs (c.responseJobFileName req) = none →
          osReadFile io w.fs (c.responseDataFileName req) = .error err →
          c.handleResponse env (Event.tick io :: es) w req
            = (Outcome.returned (none, some err),
                { stream := w.stream, fs := w.fs,
                  calls := w.calls ++ [Call.stat (c.responseJobFileName req),
                    Call.readFile (c.responseDataFileName req)] }))
      ∧ (∀ data, osStat io w.fs (c.responseJobFileName req) = none →
          osReadFile io w.fs (c.responseDataFileName req) = .ok data →
          io (Call.removeAll (c.responseJobFileName req)) = false →
          io (Call.removeAll (c.responseDataFileName req)) = false →
          (c.handleResponse env (Event.tick io :: es) w req).1
              = Outcome.returned (c.parseResponse env req data)
            ∧ fsLookup (c.handleResponse env (Event.tick io :: es) w req).2.fs
                (c.responseJobFileName req) = none
            ∧ fsLookup (c.handleResponse env (Event.tick io :: es) w req).2.fs
                (c.responseDataFileName req) = none) := by
  refine ⟨fun e => rfl, ?_, ?_⟩
  · intro err hs hr
    simp [Client.handleResponse, World.log, hs, hr]
  · intro data hs hr h1 h2
    rw [handleResponse_tick_consumed c env io es w req data hs hr h1 h2]
    exact ⟨rfl, fsLookup_removeAll_none _ _ _ (fsLookup_removeAll_self _ _),
      fsLookup_removeAll_self _ _⟩

/-- C10 as amended, at a marker without data entry (nothing is removed) and at the envelope
with error `not found` (both entries are removed and the error is returned). -/
theorem handleResponse_cleanup_before_decode_witness :
    sampleClient.handleResponse sampleEnv (Event.tick noFaults :: []) markerOnlyWorld sampleReq
        = (Outcome.returned
            (none, some (GoError.pathError "open" (utf8 "/mnt/out/6f1c")
              "no such file or directory")),
            { stream := [], fs := markerOnlyWorld.fs,
              calls := [Call.stat (utf8 "/mnt/out/6f1c.done"),
                Call.readFile (utf8 "/mnt/out/6f1c")] })
      ∧ (sampleClient.handleResponse sampleEnv (Event.tick noFaults :: [])
          (publishedWorld notFoundEnvelope) sampleReq).1
        = Outcome.returned (sampleClient.parseResponse sampleEnv sampleReq notFoundEnvelope)
      ∧ fsLookup (sampleClient.handleResponse sampleEnv (Event.tick noFaults :: [])
          (publishedWorld notFoundEnvelope) sampleReq).2.fs (utf8 "/mnt/out/6f1c.done") = none
      ∧ fsLookup (sampleClient.handleResponse sampleEnv (Event.tick noFaults :: [])
          (publishedWorld notFoundEnvelope) sampleReq).2.fs (utf8 "/mnt/out/6f1c") = none :=
  ⟨(handleResponse_cleanup_before_decode sampleClient sampleEnv noFaults [] markerOnlyWorld
      sampleReq).2.1 _ rfl rfl,
   (handleResponse_cleanup_before_decode sampleClient sampleEnv noFaults []
      (publishedWorld notFoundEnvelope) sampleReq).2.2 notFoundEnvelope rfl rfl rfl rfl⟩

end V86
